import Mathlib

/-!
Verification development for the camera capture-and-enhancement pipeline
(`src/services/imageProcessing.ts`, `src/services/geminiService.ts`,
`src/App.tsx`).

The development shallowly embeds the pipeline:

* the convolution engine (`applyConvolution`) over 8-bit RGBA buffers,
  with `Uint8ClampedArray` store semantics (clamp to `[0,255]`, round
  half to even), since `ImageData.data` is a `Uint8ClampedArray`;
* the look processor (`processSonyLook`) and frame stacker
  (`performStacking`) over exact-rational RGBA pixels, threading the
  canvas state through each drawing operation exactly as the source
  sequences them;
* the capture session handler (`handleCapture` in `App.tsx`) as a state
  machine over an explicit session record;
* the remote scene-analysis wrapper (`analyzeImageScene`) with an
  explicit `Except` result type that records whether the JS function can
  propagate an exception to its caller.
-/

attribute [local semireducible] Rat.add Rat.mul Rat.inv Rat.sub Rat.ofScientific

/-- A pixel of an 8-bit RGBA buffer (one `ImageData` slot group): four
channels, each a byte value (`Uint8ClampedArray` entries). -/
@[ext]
structure Pix where
  r : Nat
  g : Nat
  b : Nat
  a : Nat
deriving DecidableEq, Repr

/-- The all-zero pixel: the value a fresh `createImageData` buffer holds,
and the value an out-of-bounds read would contribute. -/
def pix0 : Pix := ⟨0, 0, 0, 0⟩

/-- Conversion of an exact arithmetic value to a `Uint8ClampedArray`
entry, per the ECMAScript `ToUint8Clamp` operation: clamp to `[0, 255]`,
then round to the nearest integer, ties to even.  This is the semantics
of the stores `dst[dstOff] = r` in `applyConvolution`, because
`ImageData.data` is a `Uint8ClampedArray`. -/
def uint8Clamp (q : ℚ) : Nat :=
  if q ≤ 0 then 0
  else if 255 ≤ q then 255
  else if q - (q.floor : ℚ) < 1/2 then q.floor.toNat
  else if 1/2 < q - (q.floor : ℚ) then q.floor.toNat + 1
  else if q.floor % 2 = 0 then q.floor.toNat
  else q.floor.toNat + 1

/-- The integer square root `⌊√n⌋`: the greatest `s ≤ n` with `s * s ≤ n`. -/
def isqrt (n : Nat) : Nat :=
  Nat.findGreatest (fun s => s * s ≤ n) n

/-- JS rounding `Math.round (Math.sqrt n)` for a natural `n`: the source computes the
kernel side as `Math.round(Math.sqrt(kernel.length))`.  With
`s = ⌊√n⌋`, the rounded value is `s + 1` exactly when `√n ≥ s + 1/2`,
i.e. when `n ≥ s² + s + 1` (for integer `n`; `√n = s + 1/2` exactly is
impossible, so JS round-half-up never fires on the tie). -/
def roundSqrt (n : Nat) : Nat :=
  let s := isqrt n
  if s * s + s + 1 ≤ n then s + 1 else s

/-- An 8-bit RGBA pixel buffer: `width × height` pixels stored row-major,
pixel `(x, y)` at flat index `y * width + x` (the source's
`(y * sw + x) * 4` addressing, grouped four bytes to a pixel). -/
structure ByteImg where
  width : Nat
  height : Nat
  data : List Pix
deriving DecidableEq, Repr

/-- The source pixel at integer coordinates, extended by zero outside
`[0, width) × [0, height)`: an out-of-bounds tap contributes nothing.
This is the claim-side formulation of the bounds check in
`applyConvolution`'s inner loop (the weight is skipped, not clamped or
wrapped). -/
def srcExt (img : ByteImg) (x y : Int) : Pix :=
  if 0 ≤ x ∧ x < (img.width : Int) ∧ 0 ≤ y ∧ y < (img.height : Int) then
    img.data.getD (y.toNat * img.width + x.toNat) pix0
  else pix0

/-- The weighted channel sum of `applyConvolution`'s inner loops for one
destination pixel `(x, y)` and one channel selector `sel`: iterate
`cy, cx` over the kernel footprint, translate to source coordinates
`scy = y + cy - halfSide`, `scx = x + cx - halfSide`, and accumulate
`kernel[cy*side+cx] * src` only when the source coordinate is in bounds
(the source's `if (scy >= 0 && scy < sh && scx >= 0 && scx < sw)`). -/
def convSum (img : ByteImg) (kernel : List ℚ) (sel : Pix → Nat) (x y : Nat) : ℚ :=
  let side := roundSqrt kernel.length
  let halfSide := side / 2
  ∑ cy ∈ Finset.range side, ∑ cx ∈ Finset.range side,
    let scy : Int := (y : Int) + (cy : Int) - (halfSide : Int)
    let scx : Int := (x : Int) + (cx : Int) - (halfSide : Int)
    if 0 ≤ scy ∧ scy < (img.height : Int) ∧ 0 ≤ scx ∧ scx < (img.width : Int) then
      kernel.getD (cy * side + cx) 0 *
        (sel (img.data.getD (scy.toNat * img.width + scx.toNat) pix0) : ℚ)
    else 0

/-- Shallow embedding of `applyConvolution`
(`src/services/imageProcessing.ts`): a newly built buffer of the same
dimensions; each destination pixel's red, green and blue channels are the
clamped weighted sums over the kernel footprint, and the alpha channel is
copied unchanged from the source pixel at the same flat offset
(`dst[dstOff + 3] = src[dstOff + 3]`).  The JS function performs no
validation of the kernel or the buffer: `side` is
`Math.round(Math.sqrt(kernel.length))` and the loops simply run.  It
reads `getImageData` and writes a fresh `createImageData` buffer, so the
input pixels are never mutated. -/
def applyConvolution (img : ByteImg) (kernel : List ℚ) : ByteImg :=
  { width := img.width
    height := img.height
    data := (List.range (img.width * img.height)).map fun idx =>
      let x := idx % img.width
      let y := idx / img.width
      { r := uint8Clamp (convSum img kernel Pix.r x y)
        g := uint8Clamp (convSum img kernel Pix.g x y)
        b := uint8Clamp (convSum img kernel Pix.b x y)
        a := (img.data.getD idx pix0).a } }

/-- The identity kernel of side `2*t + 1`: all zeros except a center
weight of `1` at kernel index `t * (2*t+1) + t`. -/
def identityKernel (t : Nat) : List ℚ :=
  (List.range ((2*t+1) * (2*t+1))).map fun i =>
    if i = t * (2*t+1) + t then 1 else 0

/-- An exact-arithmetic RGBA pixel: color channels on the `[0, 255]`
scale and alpha on the `[0, 1]` scale, as rationals.  The look processor
and frame stacker are modelled over exact rationals — the level at which
the spec states their compositing formulas. -/
@[ext]
structure QPix where
  r : ℚ
  g : ℚ
  b : ℚ
  a : ℚ
deriving DecidableEq, Repr

/-- A fully transparent black pixel: the state of a cleared canvas. -/
def transparent : QPix := ⟨0, 0, 0, 0⟩

/-- An exact-arithmetic canvas: dimensions plus a pixel at every flat
index (row-major, index `y * width + x`). -/
structure QImg where
  width : Nat
  height : Nat
  data : Nat → QPix

/-- A canvas after `ctx.clearRect(0, 0, w, h)` (or freshly resized):
every pixel transparent black. -/
def clearCanvas (w h : Nat) : QImg := ⟨w, h, fun _ => transparent⟩

/-- Apply a per-pixel color transform to a whole canvas. -/
def mapPixels (f : QPix → QPix) (img : QImg) : QImg :=
  ⟨img.width, img.height, fun n => f (img.data n)⟩

/-- Resulting alpha of source-over compositing: `αs + αb·(1 - αs)`. -/
def sourceOverAlpha (as ab : ℚ) : ℚ := as + ab * (1 - as)

/-- Source-over compositing of one straight (non-premultiplied) color
channel: `(αs·Cs + (1-αs)·αb·Cb) / αo`, and `0` where the result alpha is
zero.  Modelled from the spec: the canvas compositor itself is browser
code, not part of `src/`; this is the standard compositing rule the
spec's blend-stage descriptions presuppose. -/
def sourceOverChan (cs as cb ab : ℚ) : ℚ :=
  let ao := sourceOverAlpha as ab
  if ao = 0 then 0 else (as * cs + (1 - as) * ab * cb) / ao

/-- One pixel of `ctx.drawImage` under `source-over`: the source pixel,
its alpha scaled by the context's `globalAlpha`, composited over the
destination pixel. -/
def drawPix (g : ℚ) (src dst : QPix) : QPix :=
  let as := g * src.a
  ⟨sourceOverChan src.r as dst.r dst.a,
   sourceOverChan src.g as dst.g dst.a,
   sourceOverChan src.b as dst.b dst.a,
   sourceOverAlpha as dst.a⟩

/-- Whole-canvas `ctx.drawImage(src, 0, 0)` under `source-over` at `globalAlpha = g`,
pixelwise over the destination canvas. -/
def drawImage (g : ℚ) (src dst : QImg) : QImg :=
  ⟨dst.width, dst.height, fun n => drawPix g (src.data n) (dst.data n)⟩

/-- Modelled from the spec: the `overlay` blend formula — "if base < 128,
result = `2*base*blend/255`; else result =
`255 - 2*(255-base)*(255-blend)/255`".  The canvas blend implementation
(`globalCompositeOperation = 'overlay'`) is browser code, not part of
`src/`. -/
def overlayBlend (base blend : ℚ) : ℚ :=
  if base < 128 then 2 * base * blend / 255
  else 255 - 2 * (255 - base) * (255 - blend) / 255

/-- Modelled from the spec: the `soft-light` blend formula — "standard
soft-light formula — darkens when blend < 128, lightens when blend ≥ 128,
using the base as the pivot".  The W3C variant needs a square root
(irrational, outside an exact-rational embedding); this is the standard
rational (pegtop) soft-light `(1 - 2s)·b² + 2s·b` on the `[0,255]` scale,
which darkens for blend < 128, lightens for blend ≥ 128 and fixes the
base at blend = 127.5.  The canvas blend implementation
(`globalCompositeOperation = 'soft-light'`) is browser code, not part of
`src/`. -/
def softLightBlend (base blend : ℚ) : ℚ :=
  (1 - 2 * blend / 255) * base * base / 255 + 2 * blend / 255 * base

/-- One color channel of a `fillRect` under a blending
`globalCompositeOperation`: the fill color is first mixed with the
backdrop through the blend function, weighted by the backdrop alpha
(`(1-αb)·Cs + αb·B(Cb,Cs)`), and the mixture is then source-over
composited at the fill's alpha.  Modelled from the spec/W3C
compositing-and-blending rules: the canvas compositor is browser code,
not part of `src/`. -/
def blendFillChan (B : ℚ → ℚ → ℚ) (cs as cb ab : ℚ) : ℚ :=
  sourceOverChan ((1 - ab) * cs + ab * B cb cs) as cb ab

/-- One pixel of a full-canvas `fillRect` with fill color
`rgba(fr, fg, fb, fa)` under the blend function `B`. -/
def blendFillPix (B : ℚ → ℚ → ℚ) (fr fg fb fa : ℚ) (p : QPix) : QPix :=
  ⟨blendFillChan B fr fa p.r p.a,
   blendFillChan B fg fa p.g p.a,
   blendFillChan B fb fa p.b p.a,
   sourceOverAlpha fa p.a⟩

/-- Whole-canvas `ctx.fillRect(0, 0, w, h)` with a blending
`globalCompositeOperation`, pixelwise. -/
def fillRectBlend (B : ℚ → ℚ → ℚ) (fr fg fb fa : ℚ) (img : QImg) : QImg :=
  ⟨img.width, img.height, fun n => blendFillPix B fr fg fb fa (img.data n)⟩

/-- Clamp a channel value to `[0, 255]`. -/
def clamp255 (q : ℚ) : ℚ := max 0 (min 255 q)

/-- Modelled from the spec: the `contrast(1.15)` adjustment — "a
multiplicative contrast adjustment (≈1.15×) ... computed around the
mid-gray pivot (128)", clamped to `[0, 255]`.  The CSS filter
implementation behind `ctx.filter` is browser code, not part of
`src/`. -/
def contrastChan (c : ℚ) : ℚ := clamp255 ((c - 128) * (23/20) + 128)

/-- Modelled from the spec: the `contrast(1.15) saturate(1.1)` filter of
`ctx.filter` — contrast around the mid-gray pivot, then "saturation
adjustment (≈1.10×) ... around each pixel's luma", with the standard luma
weights 0.213 / 0.715 / 0.072 and per-stage clamping to `[0, 255]`.  The
CSS filter implementation is browser code, not part of `src/`. -/
def csFilterPix (p : QPix) : QPix :=
  let r1 := contrastChan p.r
  let g1 := contrastChan p.g
  let b1 := contrastChan p.b
  let luma := (213 * r1 + 715 * g1 + 72 * b1) / 1000
  ⟨clamp255 (luma + (11/10) * (r1 - luma)),
   clamp255 (luma + (11/10) * (g1 - luma)),
   clamp255 (luma + (11/10) * (b1 - luma)),
   p.a⟩

/-- Shallow embedding of `processSonyLook`
(`src/services/imageProcessing.ts`), threading the canvas state through
the drawing operations exactly as the source sequences them:
1. copy the canvas to `tempCanvas` (the saved original);
2. clear the main canvas and draw the original back;
3. `fillRect` the full canvas with `rgba(0, 0, 20, 0.1)` under
   `globalCompositeOperation = 'overlay'`;
4. `fillRect` with `rgba(255, 150, 50, 0.15)` under `'soft-light'`;
5. reset the operation to `'source-over'`, set
   `ctx.filter = 'contrast(1.15) saturate(1.1)'`, and draw `tempCanvas`
   — the saved original, not the tinted canvas — over the canvas at full
   `globalAlpha` (the filter applies to the drawn source before
   compositing). -/
def processSonyLook (img : QImg) : QImg :=
  let temp := img
  let s1 := drawImage 1 temp (clearCanvas img.width img.height)
  let s2 := fillRectBlend overlayBlend 0 0 20 (1/10) s1
  let s3 := fillRectBlend softLightBlend 255 150 50 (3/20) s2
  drawImage 1 (mapPixels csFilterPix temp) s3

/-- Shallow embedding of `performStacking`
(`src/services/imageProcessing.ts`): size and clear the canvas, then for
`i = 0..3` (the source's `frameCount = 4`) draw the `i`-th video frame
with `ctx.globalAlpha = 1 / (i + 1)` under `source-over`, then apply
`processSonyLook` once.  The 50 ms pacing delay has no pixel effect and
the JPEG encoding (`canvas.toDataURL('image/jpeg', 0.95)`) is outside the
pixel model: the function returns the buffer that is encoded. -/
def performStacking (fs : Nat → QImg) (w h : Nat) : QImg :=
  let stacked := (List.range 4).foldl
    (fun (acc : QImg) (i : Nat) => drawImage (1 / ((i : ℚ) + 1)) (fs i) acc)
    (clearCanvas w h)
  processSonyLook stacked

/-- The look pipeline as claim C3 states it: three chained stages, each
operating on the buffer produced by the previous one — overlay tint, then
soft-light tint, then contrast/saturation applied to the tinted
composite.  This is the claim-side definition, to be compared with
`processSonyLook`. -/
def chainedLook (img : QImg) : QImg :=
  mapPixels csFilterPix
    (fillRectBlend softLightBlend 255 150 50 (3/20)
      (fillRectBlend overlayBlend 0 0 20 (1/10) img))

/-- The stacking accumulator as the spec states it: the `i`-th sample
(1-indexed) is blended into the accumulator with weight `1/i` on each
color channel, and the composite is opaque.  Spec-side definition for the
refinement claim C1. -/
def specBlend (i : Nat) (acc frame : QPix) : QPix :=
  ⟨(1 - 1/(i : ℚ)) * acc.r + (1/(i : ℚ)) * frame.r,
   (1 - 1/(i : ℚ)) * acc.g + (1/(i : ℚ)) * frame.g,
   (1 - 1/(i : ℚ)) * acc.b + (1/(i : ℚ)) * frame.b,
   1⟩

/-- The pre-look composite as the spec states it: four samples folded
into an accumulator by the recursive `1/i` rule (`specBlend`), pixelwise.
Spec-side definition for the refinement claim C1. -/
def specStackComposite (fs : Nat → QImg) (w h : Nat) : QImg :=
  ⟨w, h, fun n =>
    (List.range 4).foldl (fun acc i => specBlend (i + 1) acc ((fs i).data n)) transparent⟩

/-- The spec's recursive compositing rule on a single channel, for an
arbitrary frame count: `recCompositeAux i acc l` blends the values of `l`
into `acc` starting at 1-indexed position `i`, each with weight `1/i`.
This is the per-channel content of `specStackComposite`. -/
def recCompositeAux : Nat → ℚ → List ℚ → ℚ
  | _, acc, [] => acc
  | i, acc, x :: xs => recCompositeAux (i + 1) ((1 - 1/(i : ℚ)) * acc + (1/(i : ℚ)) * x) xs

/-- The spec's recursive `1/i` compositing rule applied to a whole
channel-value sequence, starting from an empty accumulator. -/
def recComposite (l : List ℚ) : ℚ := recCompositeAux 1 0 l

/-- Claim C2 as stated: there is some nonempty sequence of per-channel
frame values on which the recursive `1/i` composite differs, in exact
rational arithmetic, from the plain arithmetic mean. -/
def recCompositeDiffersFromMean : Prop :=
  ∃ l : List ℚ, l ≠ [] ∧ recComposite l ≠ l.sum / l.length

/-- A captured artifact record (`CapturedImage` in `src/types.ts`),
reduced to the identity and payload fields the session claims speak
about. -/
structure CapturedImage where
  id : Nat
  url : String
deriving DecidableEq

/-- The session state of `App.tsx` relevant to capture: the
`isCapturing` flag and the `photos` list (most recent first). -/
structure Session where
  isCapturing : Bool
  photos : List CapturedImage
deriving DecidableEq

/-- The outcome of the body of one capture attempt: either the canvas
pipeline produced a data URL (a new photo) or the body threw — caught by
`handleCapture`'s `catch`, which only logs; no photo is produced. -/
inductive CaptureAttempt where
  | success (img : CapturedImage)
  | failure
deriving DecidableEq

/-- The entry of `handleCapture` (`src/App.tsx`):
`if (!videoRef.current || !canvasRef.current || isCapturing) return;`
followed by `setIsCapturing(true)`.  Returns the new state and whether
the capture body starts.  When `isCapturing` is set the function returns
immediately: the state is untouched and the caller receives nothing (the
async function resolves with `undefined`; no error value of any kind
exists in the code). -/
def beginCapture (s : Session) : Session × Bool :=
  if s.isCapturing then (s, false)
  else ({ s with isCapturing := true }, true)

/-- The completion of one capture body (`src/App.tsx`): on success the
new photo is prepended (`setPhotos(prev => [newPhoto, ...prev])`); on a
caught failure the list is unchanged; the `finally` block resets
`isCapturing` in both cases. -/
def finishCapture (s : Session) (att : CaptureAttempt) : Session :=
  { isCapturing := false
    photos := match att with
      | .success img => img :: s.photos
      | .failure => s.photos }

/-- One full run of `handleCapture` with no interleaved re-entry: the
entry guard, then — only if the body started — the body and its
`finally`.  A re-entrant request lands between `beginCapture` and
`finishCapture` of the capture in flight, where it observes
`isCapturing = true`. -/
def handleCapture (s : Session) (att : CaptureAttempt) : Session :=
  let p := beginCapture s
  if p.2 then finishCapture p.1 att else p.1

/-- A sequence of non-overlapping `handleCapture` runs starting from the
initial app state (`isCapturing = false`, `photos = []`). -/
def runCaptures (atts : List CaptureAttempt) : Session :=
  atts.foldl handleCapture ⟨false, []⟩

/-- The successfully completed captures of a capture sequence, in
order. -/
def successImages (atts : List CaptureAttempt) : List CapturedImage :=
  atts.filterMap fun att => match att with
    | .success img => some img
    | .failure => none

/-- Shallow embedding of `analyzeImageScene`
(`src/services/geminiService.ts`).  The result type `Except Unit String`
records whether the JS async function can reject (propagate an exception)
to its caller.  `remote` stands for the behavior of everything inside the
`try` block — SDK model lookup, request, `response.text` — collapsed to
either a thrown JS exception (`Except.error ()`) or a produced
`response.text` (possibly absent).  When `process.env.API_KEY` is empty
the function returns a sentinel before entering the `try`; inside, every
throw is caught and mapped to a sentinel; an absent or empty
`response.text` yields the fallback sentinel (JS
`response.text || "Analysis failed."` treats the empty string as
falsy). -/
def analyzeImageScene (apiKey : String) (remote : Except Unit (Option String)) :
    Except Unit String :=
  if apiKey = "" then .ok "API Key missing. AI features disabled."
  else
    match remote with
    | .ok (some t) => .ok (if t = "" then "Analysis failed." else t)
    | .ok none => .ok "Analysis failed."
    | .error _ => .ok "Could not analyze scene."

/-- Shallow embedding of `handleAiAnalysis` (`src/App.tsx`): runs the
analysis on a selected photo, stores the resulting string into the
`aiAnalysis` UI state — or the "AI Service Unavailable." fallback of its
own `catch`, were `analyzeImageScene` ever to reject — and never touches
the photo collection: it returns the photos list next to the new analysis
text. -/
def handleAiAnalysis (photos : List CapturedImage) (apiKey : String)
    (remote : Except Unit (Option String)) : List CapturedImage × String :=
  (photos,
    match analyzeImageScene apiKey remote with
    | .ok t => t
    | .error _ => "AI Service Unavailable.")

/-- The weighted channel sum over the zero-extended source: the
claim-side formulation of the convolution edge policy, in which every
kernel tap appears in the sum and out-of-bounds taps contribute zero
(`srcExt` is zero outside the buffer), instead of being skipped by a
bounds check.  To be compared with `convSum`. -/
def convSumExt (img : ByteImg) (kernel : List ℚ) (sel : Pix → Nat) (x y : Nat) : ℚ :=
  let side := roundSqrt kernel.length
  let halfSide := side / 2
  ∑ cy ∈ Finset.range side, ∑ cx ∈ Finset.range side,
    kernel.getD (cy * side + cx) 0 *
      (sel (srcExt img ((x : Int) + (cx : Int) - (halfSide : Int))
        ((y : Int) + (cy : Int) - (halfSide : Int))) : ℚ)

/-- The per-pixel contract of claim C4 at destination pixel `(x, y)`:
dimensions preserved, a full fresh data buffer, alpha copied from the
source pixel at the same position, and each RGB channel equal to the
clamped weighted sum over the zero-extended source (every out-of-bounds
tap contributing zero). -/
def convContract (img : ByteImg) (kernel : List ℚ) (x y : Nat) : Prop :=
  (applyConvolution img kernel).width = img.width ∧
  (applyConvolution img kernel).height = img.height ∧
  (applyConvolution img kernel).data.length = img.width * img.height ∧
  ((applyConvolution img kernel).data.getD (y * img.width + x) pix0).a
    = (img.data.getD (y * img.width + x) pix0).a ∧
  ((applyConvolution img kernel).data.getD (y * img.width + x) pix0).r
    = uint8Clamp (convSumExt img kernel Pix.r x y) ∧
  ((applyConvolution img kernel).data.getD (y * img.width + x) pix0).g
    = uint8Clamp (convSumExt img kernel Pix.g x y) ∧
  ((applyConvolution img kernel).data.getD (y * img.width + x) pix0).b
    = uint8Clamp (convSumExt img kernel Pix.b x y)

/-- A concrete 1×1 opaque mid-dark gray canvas, used to instantiate the
look-processor claims on explicit inputs. -/
def qimg40 : QImg := ⟨1, 1, fun _ => ⟨40, 40, 40, 1⟩⟩

/-- A concrete 1×1 opaque frame source (every sample identical), used to
instantiate the stacking claims on explicit inputs. -/
def constFrame : QImg := ⟨1, 1, fun _ => ⟨100, 50, 25, 1⟩⟩

/-- A concrete 2×2 byte buffer, used to instantiate the convolution
claims on explicit inputs. -/
def byteImg2x2 : ByteImg :=
  ⟨2, 2, [⟨1, 2, 3, 4⟩, ⟨5, 6, 7, 8⟩, ⟨9, 10, 11, 12⟩, ⟨13, 14, 15, 16⟩]⟩

/-- A concrete 1×1 byte buffer, used to instantiate the convolution
claims on explicit inputs. -/
def byteImg1x1 : ByteImg := ⟨1, 1, [⟨10, 20, 30, 40⟩]⟩

/-- The 3×3 sharpen kernel the source defines (`sharpenKernel`). -/
def sharpenKernel : List ℚ := [0, -1, 0, -1, 5, -1, 0, -1, 0]

/-! ## Helper lemmas -/

/-- On a non-busy session, one `handleCapture` run performs the body and
the `finally`. -/
theorem handleCapture_not_busy (s : Session) (att : CaptureAttempt)
    (h : s.isCapturing = false) : handleCapture s att = finishCapture s att := by
  simp [handleCapture, beginCapture, h, finishCapture]

/-- On a busy session, one `handleCapture` run changes nothing. -/
theorem handleCapture_busy (s : Session) (att : CaptureAttempt)
    (h : s.isCapturing = true) : handleCapture s att = s := by
  simp [handleCapture, beginCapture, h]

/-- Folding capture runs from any non-busy state prepends the successful
photos in reverse completion order. -/
theorem foldl_handleCapture_photos (atts : List CaptureAttempt) :
    ∀ s : Session, s.isCapturing = false →
      (atts.foldl handleCapture s).photos = (successImages atts).reverse ++ s.photos := by
  induction atts with
  | nil => intro s _; simp [successImages]
  | cons att atts ih =>
    intro s h
    rw [List.foldl_cons, handleCapture_not_busy s att h, ih (finishCapture s att) rfl]
    cases att <;> simp [successImages, finishCapture]

/-- The recursive `1/i` blend, entered at 1-indexed position `k + 1` with
accumulator `a`, computes the running weighted average of `a` (with
weight `k`) and the remaining values. -/
theorem recCompositeAux_eq (xs : List ℚ) :
    ∀ (k : Nat) (a : ℚ), 1 ≤ k →
      recCompositeAux (k + 1) a xs = ((k : ℚ) * a + xs.sum) / ((k : ℚ) + xs.length) := by
  induction xs with
  | nil =>
    intro k a hk
    have hk0 : ((k : ℚ)) ≠ 0 := Nat.cast_ne_zero.mpr (by omega)
    simp only [recCompositeAux, List.sum_nil, List.length_nil, Nat.cast_zero,
      add_zero]
    rw [eq_div_iff hk0]
    ring
  | cons x xs ih =>
    intro k a hk
    have hk1 : (((k + 1 : Nat) : ℚ)) ≠ 0 := Nat.cast_ne_zero.mpr (by omega)
    have step : recCompositeAux (k + 1) a (x :: xs)
        = recCompositeAux (k + 1 + 1)
            ((1 - 1/(((k + 1 : Nat)) : ℚ)) * a + (1/(((k + 1 : Nat)) : ℚ)) * x) xs := rfl
    rw [step, ih (k + 1) _ (by omega)]
    have hd1 : (((k + 1 : Nat) : ℚ) + (xs.length : ℚ)) ≠ 0 := by positivity
    have hd2 : ((k : ℚ) + ((x :: xs).length : ℚ)) ≠ 0 := by
      positivity
    push_cast at hd1 ⊢
    field_simp
    ring

/-- In exact rational arithmetic the recursive `1/i` composite of a
nonempty sequence equals its arithmetic mean: by induction, after `n`
samples the accumulator is exactly the mean of the first `n` values. -/
theorem recComposite_eq_mean_aux (l : List ℚ) (h : l ≠ []) :
    recComposite l = l.sum / l.length := by
  match l, h with
  | x :: xs, _ =>
    have h1 : recComposite (x :: xs) = recCompositeAux (1 + 1) x xs := by
      show recCompositeAux 2 ((1 - 1/((1 : Nat) : ℚ)) * 0 + (1/((1 : Nat) : ℚ)) * x) xs = _
      norm_num
    rw [h1, recCompositeAux_eq xs 1 x le_rfl]
    simp only [List.sum_cons, List.length_cons]
    push_cast
    ring_nf

/-- C2 (counterexample to the claim as stated): no sequence of frames
whatsoever makes the recursive `1/i` composite differ from the plain
arithmetic mean in exact rational arithmetic — each frame's final weight
is exactly `1/N`, so the claimed distinguishing sequence cannot exist. -/
theorem no_recComposite_differs_from_mean : ¬ recCompositeDiffersFromMean := by
  rintro ⟨l, hne, hdiff⟩
  exact hdiff (recComposite_eq_mean_aux l hne)

/-- C2 (amended): for every nonempty sequence of per-channel frame
values, the pre-look composite produced by the recursive `1/i`
compositing rule equals, in exact rational arithmetic, the plain
arithmetic mean of the frames; the reference output can deviate from a
naive average only through the canvas's per-step 8-bit quantization, not
through the compositing formula itself. -/
theorem recComposite_eq_mean (l : List ℚ) (h : l ≠ []) :
    recComposite l = l.sum / l.length :=
  recComposite_eq_mean_aux l h

/-- Witness for `recComposite_eq_mean` at the concrete frame sequence
`[30, 60, 240]`, whose mean is `110`. -/
theorem recComposite_eq_mean_witness :
    ([30, 60, 240] : List ℚ) ≠ [] ∧
      recComposite [30, 60, 240]
        = ([30, 60, 240] : List ℚ).sum / (([30, 60, 240] : List ℚ).length : ℚ) :=
  ⟨by decide, recComposite_eq_mean [30, 60, 240] (by decide)⟩

/-- C7 (counterexample to the claim as stated): on a busy session
(`isCapturing = true`) a further capture request is NOT rejected with a
`CaptureInProgress` failure — no failure value of any kind exists in the
code.  The handler hits its entry guard and resolves with `undefined`,
leaving the session unchanged: the request is silently dropped (and also
not queued). -/
theorem handleCapture_busy_is_silent_drop :
    handleCapture ⟨true, []⟩ (.success ⟨1, "url"⟩) = ⟨true, []⟩ := by decide

/-- C7 (amended): while a capture is in flight, every further request on
the session is ignored with no observable effect and no error value (not
queued, silently dropped); after the capture in flight completes or fails
its `finally` resets `isCapturing`, so a subsequent request passes the
guard and runs normally. -/
theorem handleCapture_reentrancy (s : Session) (att next : CaptureAttempt)
    (h : s.isCapturing = true) :
    handleCapture s next = s ∧
    (finishCapture s att).isCapturing = false ∧
    (beginCapture (finishCapture s att)).2 = true ∧
    handleCapture (finishCapture s att) next
      = finishCapture (finishCapture s att) next := by
  refine ⟨handleCapture_busy s next h, rfl, ?_, ?_⟩
  · simp [beginCapture, finishCapture]
  · exact handleCapture_not_busy _ next rfl

/-- Witness for `handleCapture_reentrancy` on the concrete busy session
`⟨true, []⟩`. -/
theorem handleCapture_reentrancy_witness :
    (⟨true, []⟩ : Session).isCapturing = true ∧
    (handleCapture ⟨true, []⟩ .failure = ⟨true, []⟩ ∧
     (finishCapture (⟨true, []⟩ : Session) (.success ⟨2, "u2"⟩)).isCapturing = false ∧
     (beginCapture (finishCapture ⟨true, []⟩ (.success ⟨2, "u2"⟩))).2 = true ∧
     handleCapture (finishCapture ⟨true, []⟩ (.success ⟨2, "u2"⟩)) .failure
       = finishCapture (finishCapture ⟨true, []⟩ (.success ⟨2, "u2"⟩)) .failure) :=
  ⟨rfl, handleCapture_reentrancy ⟨true, []⟩ (.success ⟨2, "u2"⟩) .failure rfl⟩

/-- C8: the analysis operation never propagates an exception — for every
key and every behavior of the remote collaborator (including any thrown
request error) it resolves with a string; a missing API credential and a
thrown error each yield their sentinel string; and `handleAiAnalysis`
returns the photo collection unchanged, so a completed capture artifact
is never invalidated by an analysis failure. -/
theorem analyzeImageScene_never_throws (apiKey : String)
    (remote : Except Unit (Option String)) (photos : List CapturedImage) :
    (∃ t : String, analyzeImageScene apiKey remote = .ok t) ∧
    (apiKey = "" →
      analyzeImageScene apiKey remote = .ok "API Key missing. AI features disabled.") ∧
    (apiKey ≠ "" → remote = .error () →
      analyzeImageScene apiKey remote = .ok "Could not analyze scene.") ∧
    (handleAiAnalysis photos apiKey remote).1 = photos := by
  refine ⟨?_, ?_, ?_, rfl⟩
  · by_cases hk : apiKey = ""
    · exact ⟨"API Key missing. AI features disabled.", by simp [analyzeImageScene, hk]⟩
    · match remote with
      | .ok (some t) =>
        exact ⟨if t = "" then "Analysis failed." else t, by simp [analyzeImageScene, hk]⟩
      | .ok none => exact ⟨"Analysis failed.", by simp [analyzeImageScene, hk]⟩
      | .error _ => exact ⟨"Could not analyze scene.", by simp [analyzeImageScene, hk]⟩
  · intro hk
    simp [analyzeImageScene, hk]
  · intro hk hr
    subst hr
    simp [analyzeImageScene, hk]

/-- Witness for `analyzeImageScene_never_throws` with no API key and a
throwing remote collaborator. -/
theorem analyzeImageScene_never_throws_witness :
    (∃ t : String, analyzeImageScene "" (.error ()) = .ok t) ∧
    (("" : String) = "" →
      analyzeImageScene "" (.error ()) = .ok "API Key missing. AI features disabled.") ∧
    (("" : String) ≠ "" → (.error () : Except Unit (Option String)) = .error () →
      analyzeImageScene "" (.error ()) = .ok "Could not analyze scene.") ∧
    (handleAiAnalysis [] "" (.error ())).1 = [] :=
  analyzeImageScene_never_throws "" (.error ()) []

/-- C10: every successfully completed capture prepends its artifact, so
after any sequence of captures the collection is in most-recent-first
order — the photos list is the reverse of the completion order — and the
first entry (`photos[0]`, the one the UI shows as the last photo) is
always the artifact of the latest completed capture. -/
theorem runCaptures_most_recent_first (atts : List CaptureAttempt) :
    (runCaptures atts).photos = (successImages atts).reverse ∧
    (runCaptures atts).photos.head? = (successImages atts).getLast? := by
  have h := foldl_handleCapture_photos atts ⟨false, []⟩ rfl
  have h1 : (runCaptures atts).photos = (successImages atts).reverse := by
    simpa [runCaptures] using h
  exact ⟨h1, by rw [h1, List.head?_reverse]⟩

/-- Reading `List.getD` on a mapped range, in bounds. -/
theorem getD_range_map {α : Type} (n i : Nat) (f : Nat → α) (d : α) (h : i < n) :
    ((List.range n).map f).getD i d = f i := by
  rw [List.getD_eq_getElem?_getD]
  simp [List.getElem?_map, List.getElem?_range, h]

/-- The floor of a rational below 255 is below 255. -/
theorem ratFloor_lt_of_lt (q : ℚ) (h : ¬ 255 ≤ q) : q.floor < 255 := by
  by_contra hc
  push_neg at hc
  exact h (by exact_mod_cast Rat.le_floor.mp hc)

/-- The clamped store `uint8Clamp` never exceeds 255. -/
theorem uint8Clamp_le (q : ℚ) : uint8Clamp q ≤ 255 := by
  unfold uint8Clamp
  split_ifs with h1 h2 h3 h4 h5 <;>
    first
      | omega
      | (have hf : q.floor < 255 := ratFloor_lt_of_lt q h2
         omega)

/-- The clamped store saturates at 255 for values at or above 255. -/
theorem uint8Clamp_of_ge (q : ℚ) (h : 255 ≤ q) : uint8Clamp q = 255 := by
  unfold uint8Clamp
  rw [if_neg (by linarith), if_pos h]

/-- The clamped store saturates at 0 for values at or below 0. -/
theorem uint8Clamp_of_le (q : ℚ) (h : q ≤ 0) : uint8Clamp q = 0 := by
  unfold uint8Clamp
  rw [if_pos h]

/-- The floor of a casted natural. -/
theorem ratFloor_natCast (n : Nat) : ((n : ℚ)).floor = n := by
  rw [Rat.floor_def']
  simp

/-- The clamped store is the identity on byte values. -/
theorem uint8Clamp_natCast (n : Nat) (h : n ≤ 255) : uint8Clamp (n : ℚ) = n := by
  unfold uint8Clamp
  rcases Nat.eq_zero_or_pos n with h0 | h0
  · subst h0
    rw [if_pos (by norm_num)]
  · rw [if_neg (not_le.mpr (by exact_mod_cast h0))]
    rcases Nat.lt_or_ge n 255 with h255 | h255
    · rw [if_neg (not_le.mpr (by exact_mod_cast h255))]
      rw [ratFloor_natCast n]
      rw [if_pos (by push_cast; norm_num)]
      simp
    · have h5 : n = 255 := by omega
      subst h5
      rw [if_pos (by norm_num)]

/-- Indexing `applyConvolution`'s output at an in-bounds pixel `(x, y)`
reads back exactly the clamped channel sums and the copied alpha. -/
theorem applyConvolution_getD (img : ByteImg) (kernel : List ℚ) (x y : Nat)
    (hx : x < img.width) (hy : y < img.height) :
    (applyConvolution img kernel).data.getD (y * img.width + x) pix0 =
      { r := uint8Clamp (convSum img kernel Pix.r x y)
        g := uint8Clamp (convSum img kernel Pix.g x y)
        b := uint8Clamp (convSum img kernel Pix.b x y)
        a := (img.data.getD (y * img.width + x) pix0).a } := by
  have hw : 0 < img.width := Nat.lt_of_le_of_lt (Nat.zero_le x) hx
  have hidx : y * img.width + x < img.width * img.height := by
    calc y * img.width + x < y * img.width + img.width := by omega
      _ = (y + 1) * img.width := by ring
      _ ≤ img.height * img.width := Nat.mul_le_mul_right _ (by omega)
      _ = img.width * img.height := Nat.mul_comm _ _
  have h1 : (y * img.width + x) % img.width = x := by
    rw [Nat.mul_comm y img.width, Nat.mul_add_mod, Nat.mod_eq_of_lt hx]
  have h2 : (y * img.width + x) / img.width = y := by
    rw [Nat.mul_comm y img.width, Nat.mul_add_div hw, Nat.div_eq_of_lt hx, Nat.add_zero]
  show ((List.range (img.width * img.height)).map _).getD (y * img.width + x) pix0 = _
  rw [getD_range_map _ _ _ _ hidx]
  simp only [h1, h2]

/-- C6 (counterexample to the claim as stated): `applyConvolution` does
NOT fail fast on an invalid kernel.  The 4-entry kernel `[1, 2, 3, 4]`
has even side (`side = round(√4) = 2`, less than 1 is likewise never
rejected) yet is processed silently: with `halfSide = 1` the single
in-bounds tap of pixel `(0,0)` carries weight `kernel[1*2+1] = 4`, and an
ordinary output buffer is produced instead of any `InvalidKernel`
failure. -/
theorem applyConvolution_even_kernel_silent :
    applyConvolution ⟨1, 1, [⟨10, 20, 30, 255⟩]⟩ [1, 2, 3, 4]
      = ⟨1, 1, [⟨40, 80, 120, 255⟩]⟩ := by decide

/-- C6 (amended): the reference `applyConvolution` performs no input
validation at all: for every buffer and kernel — even-sided or undersized
kernels and zero-dimension buffers included — it is a total function that
silently produces an output buffer of the input's dimensions with
`width * height` pixels.  No `InvalidKernel` / `InvalidBuffer` failure
channel exists in the code (the only exception a degenerate call could
raise would come from the canvas API's `getImageData`, outside this
function's own code). -/
theorem applyConvolution_no_validation (img : ByteImg) (kernel : List ℚ) :
    (applyConvolution img kernel).width = img.width ∧
    (applyConvolution img kernel).height = img.height ∧
    (applyConvolution img kernel).data.length = img.width * img.height :=
  ⟨rfl, rfl, by simp [applyConvolution]⟩

/-- C9 (counterexample to the claim as stated): on the 1×1 buffer with
red 200 and the 1×1 kernel `[2]`, the weighted red sum is 400.  Mod-256
wraparound would store `400 % 256 = 144`, but the code stores 255:
`ImageData.data` is a `Uint8ClampedArray`, whose store clamps to
`[0, 255]` instead of truncating to the low 8 bits. -/
theorem applyConvolution_overflow_clamps :
    convSum ⟨1, 1, [⟨200, 0, 0, 255⟩]⟩ [2] Pix.r 0 0 = 400 ∧
    ((applyConvolution ⟨1, 1, [⟨200, 0, 0, 255⟩]⟩ [2]).data.getD 0 pix0).r = 255 ∧
    (400 : Nat) % 256 = 144 ∧ (255 : Nat) ≠ 144 := by decide

/-- C9 (amended): a weighted RGB sum falling outside `[0, 255]` is stored
clamped, not wrapped: `ImageData.data` is a `Uint8ClampedArray`, so the
store saturates at the range ends (rounding fractional values half to
even).  At every in-bounds pixel the stored red channel is the clamped
conversion of the exact sum — never above 255, equal to 255 whenever the
sum is at least 255, and equal to 0 whenever the sum is at most 0 (the
same holds for green and blue, which store the same conversion of their
sums). -/
theorem applyConvolution_store_clamped (img : ByteImg) (kernel : List ℚ) (x y : Nat)
    (hx : x < img.width) (hy : y < img.height) :
    ((applyConvolution img kernel).data.getD (y * img.width + x) pix0).r
      = uint8Clamp (convSum img kernel Pix.r x y) ∧
    uint8Clamp (convSum img kernel Pix.r x y) ≤ 255 ∧
    (255 ≤ convSum img kernel Pix.r x y →
      uint8Clamp (convSum img kernel Pix.r x y) = 255) ∧
    (convSum img kernel Pix.r x y ≤ 0 →
      uint8Clamp (convSum img kernel Pix.r x y) = 0) :=
  ⟨by rw [applyConvolution_getD img kernel x y hx hy],
   uint8Clamp_le _,
   uint8Clamp_of_ge _,
   uint8Clamp_of_le _⟩

/-- Witness for `applyConvolution_store_clamped` on a concrete 1×1 buffer
with the scaling kernel `[2]`. -/
theorem applyConvolution_store_clamped_witness :
    0 < (⟨1, 1, [⟨200, 0, 0, 255⟩]⟩ : ByteImg).width ∧
    0 < (⟨1, 1, [⟨200, 0, 0, 255⟩]⟩ : ByteImg).height ∧
    (((applyConvolution ⟨1, 1, [⟨200, 0, 0, 255⟩]⟩ [2]).data.getD
        (0 * (⟨1, 1, [⟨200, 0, 0, 255⟩]⟩ : ByteImg).width + 0) pix0).r
      = uint8Clamp (convSum ⟨1, 1, [⟨200, 0, 0, 255⟩]⟩ [2] Pix.r 0 0) ∧
    uint8Clamp (convSum ⟨1, 1, [⟨200, 0, 0, 255⟩]⟩ [2] Pix.r 0 0) ≤ 255 ∧
    (255 ≤ convSum ⟨1, 1, [⟨200, 0, 0, 255⟩]⟩ [2] Pix.r 0 0 →
      uint8Clamp (convSum ⟨1, 1, [⟨200, 0, 0, 255⟩]⟩ [2] Pix.r 0 0) = 255) ∧
    (convSum ⟨1, 1, [⟨200, 0, 0, 255⟩]⟩ [2] Pix.r 0 0 ≤ 0 →
      uint8Clamp (convSum ⟨1, 1, [⟨200, 0, 0, 255⟩]⟩ [2] Pix.r 0 0) = 0)) :=
  ⟨by decide, by decide,
    applyConvolution_store_clamped ⟨1, 1, [⟨200, 0, 0, 255⟩]⟩ [2] 0 0
      (by decide) (by decide)⟩

/-- The source's guarded tap sum equals the sum over the zero-extended
source: skipping an out-of-bounds tap is the same as letting it
contribute zero. -/
theorem convSum_eq_convSumExt (img : ByteImg) (kernel : List ℚ) (sel : Pix → Nat)
    (hsel : sel pix0 = 0) (x y : Nat) :
    convSum img kernel sel x y = convSumExt img kernel sel x y := by
  simp only [convSum, convSumExt]
  refine Finset.sum_congr rfl fun cy _ => Finset.sum_congr rfl fun cx _ => ?_
  by_cases hP : 0 ≤ (y : Int) + (cy : Int) - ((roundSqrt kernel.length / 2 : Nat) : Int) ∧
      (y : Int) + (cy : Int) - ((roundSqrt kernel.length / 2 : Nat) : Int) < (img.height : Int) ∧
      0 ≤ (x : Int) + (cx : Int) - ((roundSqrt kernel.length / 2 : Nat) : Int) ∧
      (x : Int) + (cx : Int) - ((roundSqrt kernel.length / 2 : Nat) : Int) < (img.width : Int)
  · rw [if_pos hP, srcExt, if_pos (by tauto)]
  · rw [if_neg hP, srcExt, if_neg (by tauto), hsel]
    norm_num

/-- C4: for every buffer and kernel, convolution produces a fresh output
buffer of identical dimensions (the JS writes a new `createImageData`
buffer and never writes the source, mirrored here by a pure function of
the input); at every in-bounds destination pixel the alpha channel is
copied unchanged from the source pixel at the same position, and each RGB
channel is the clamped weighted sum over the zero-extended source, i.e.
every kernel tap whose source coordinate falls outside
`[0, width) × [0, height)` contributes exactly zero (skipped, not clamped
or wrapped). -/
theorem applyConvolution_contract (img : ByteImg) (kernel : List ℚ) (x y : Nat)
    (hx : x < img.width) (hy : y < img.height) :
    convContract img kernel x y := by
  have hg := applyConvolution_getD img kernel x y hx hy
  refine ⟨rfl, rfl, by simp [applyConvolution], ?_, ?_, ?_, ?_⟩
  · rw [hg]
  · rw [hg, convSum_eq_convSumExt img kernel Pix.r rfl x y]
  · rw [hg, convSum_eq_convSumExt img kernel Pix.g rfl x y]
  · rw [hg, convSum_eq_convSumExt img kernel Pix.b rfl x y]

/-- Witness for `applyConvolution_contract` on a concrete 1×1 buffer with
the source's 3×3 sharpen kernel. -/
theorem applyConvolution_contract_witness :
    0 < byteImg1x1.width ∧ 0 < byteImg1x1.height ∧
      convContract byteImg1x1 sharpenKernel 0 0 :=
  ⟨by decide, by decide,
    applyConvolution_contract byteImg1x1 sharpenKernel 0 0 (by decide) (by decide)⟩

/-- The integer square root of a perfect square. -/
theorem isqrt_sq (m : Nat) : isqrt (m * m) = m := by
  unfold isqrt
  rcases Nat.eq_zero_or_pos m with hm | hm
  · subst hm
    rfl
  · rw [Nat.findGreatest_eq_iff]
    refine ⟨Nat.le_mul_of_pos_left m hm, fun _ => le_rfl, fun n hn _ hP => ?_⟩
    exact absurd hP (Nat.not_le.mpr (Nat.mul_self_lt_mul_self hn))

/-- JS rounding of the square root of a perfect square. -/
theorem roundSqrt_sq (m : Nat) : roundSqrt (m * m) = m := by
  unfold roundSqrt
  rw [isqrt_sq]
  simp only []
  rw [if_neg (by omega)]

/-- The identity kernel has `(2t+1)²` entries. -/
theorem identityKernel_length (t : Nat) :
    (identityKernel t).length = (2*t+1) * (2*t+1) := by
  simp [identityKernel]

/-- The flat kernel index of a tap determines its row and column. -/
theorem centerIndex_unique (t cy cx : Nat) (hcx : cx < 2*t+1)
    (h : cy * (2*t+1) + cx = t * (2*t+1) + t) : cy = t ∧ cx = t := by
  have h1 : (cy * (2*t+1) + cx) / (2*t+1) = cy := by
    rw [Nat.mul_comm cy, Nat.mul_add_div (by omega), Nat.div_eq_of_lt hcx, Nat.add_zero]
  have h2 : (t * (2*t+1) + t) / (2*t+1) = t := by
    rw [Nat.mul_comm t, Nat.mul_add_div (by omega), Nat.div_eq_of_lt (by omega), Nat.add_zero]
  have hcy : cy = t := by rw [← h1, h, h2]
  subst hcy
  omega

/-- Convolving with the identity kernel reads back the center tap: the
whole guarded double sum collapses to the source pixel itself. -/
theorem convSum_identityKernel (img : ByteImg) (t : Nat) (sel : Pix → Nat)
    (x y : Nat) (hx : x < img.width) (hy : y < img.height) :
    convSum img (identityKernel t) sel x y
      = (sel (img.data.getD (y * img.width + x) pix0) : ℚ) := by
  have hside : roundSqrt (identityKernel t).length = 2*t+1 := by
    rw [identityKernel_length]
    exact roundSqrt_sq (2*t+1)
  have hhalf : (2*t+1) / 2 = t := by omega
  have hker : ∀ cy cx : Nat, cy < 2*t+1 → cx < 2*t+1 →
      (identityKernel t).getD (cy * (2*t+1) + cx) 0
        = if cy = t ∧ cx = t then (1 : ℚ) else 0 := by
    intro cy cx hcy hcx
    have hidx : cy * (2*t+1) + cx < (2*t+1) * (2*t+1) := by
      calc cy * (2*t+1) + cx < cy * (2*t+1) + (2*t+1) := by omega
        _ = (cy + 1) * (2*t+1) := by ring
        _ ≤ (2*t+1) * (2*t+1) := Nat.mul_le_mul_right _ (by omega)
    rw [identityKernel, getD_range_map _ _ _ _ hidx]
    by_cases hc : cy = t ∧ cx = t
    · rw [if_pos (by rw [hc.1, hc.2]), if_pos hc]
    · rw [if_neg (fun he => hc (centerIndex_unique t cy cx hcx he)), if_neg hc]
  simp only [convSum, hside, hhalf]
  rw [Finset.sum_eq_single_of_mem t (Finset.mem_range.mpr (by omega))]
  · rw [Finset.sum_eq_single_of_mem t (Finset.mem_range.mpr (by omega))]
    · have hcond : 0 ≤ (y : Int) + (t : Int) - (t : Int) ∧
          (y : Int) + (t : Int) - (t : Int) < (img.height : Int) ∧
          0 ≤ (x : Int) + (t : Int) - (t : Int) ∧
          (x : Int) + (t : Int) - (t : Int) < (img.width : Int) := by
        refine ⟨by omega, ?_, by omega, ?_⟩
        · have : ((y : Int) + t - t) = (y : Int) := by ring
          rw [this]
          exact_mod_cast hy
        · have : ((x : Int) + t - t) = (x : Int) := by ring
          rw [this]
          exact_mod_cast hx
      rw [if_pos hcond, hker t t (by omega) (by omega), if_pos ⟨rfl, rfl⟩]
      have hsy : ((y : Int) + t - t).toNat = y := by omega
      have hsx : ((x : Int) + t - t).toNat = x := by omega
      rw [hsy, hsx, one_mul]
    · intro cx hcx hne
      split
      · rw [hker t cx (by omega) (Finset.mem_range.mp hcx),
          if_neg (fun hc => hne hc.2), zero_mul]
      · rfl
  · intro cy hcy hne
    apply Finset.sum_eq_zero
    intro cx hcx
    split
    · rw [hker cy cx (Finset.mem_range.mp hcy) (Finset.mem_range.mp hcx),
        if_neg (fun hc => hne hc.1), zero_mul]
    · rfl

/-- C5: convolving any well-formed buffer (full data list, byte-ranged
channels) with the identity kernel — all zeros except a center weight of
1, at any odd side `2t+1` — returns a buffer equal to the input in every
pixel's red, green, blue and alpha channels. -/
theorem applyConvolution_identity (img : ByteImg) (t : Nat)
    (hlen : img.data.length = img.width * img.height)
    (hchan : ∀ p ∈ img.data, p.r ≤ 255 ∧ p.g ≤ 255 ∧ p.b ≤ 255) :
    applyConvolution img (identityKernel t) = img := by
  have hdata : (applyConvolution img (identityKernel t)).data = img.data := by
    apply List.ext_getElem
    · simp [applyConvolution, hlen]
    · intro i h1 h2
      have hi : i < img.width * img.height := by
        simpa [applyConvolution] using h1
      have hw : 0 < img.width := by
        rcases Nat.eq_zero_or_pos img.width with h0 | h0
        · rw [h0, Nat.zero_mul] at hi
          omega
        · exact h0
      have hx : i % img.width < img.width := Nat.mod_lt _ hw
      have hy : i / img.width < img.height := by
        rw [Nat.div_lt_iff_lt_mul hw]
        calc i < img.width * img.height := hi
          _ = img.height * img.width := Nat.mul_comm _ _
      have hyx : (i / img.width) * img.width + i % img.width = i := by
        rw [Nat.mul_comm]
        exact Nat.div_add_mod i img.width
      have hilen : i < img.data.length := by rw [hlen]; exact hi
      have hgetD : img.data.getD i pix0 = img.data[i] := List.getD_eq_getElem _ _ hilen
      have hmem : img.data[i] ∈ img.data := List.getElem_mem hilen
      have hout : (applyConvolution img (identityKernel t)).data[i]
          = { r := uint8Clamp (convSum img (identityKernel t) Pix.r (i % img.width) (i / img.width))
              g := uint8Clamp (convSum img (identityKernel t) Pix.g (i % img.width) (i / img.width))
              b := uint8Clamp (convSum img (identityKernel t) Pix.b (i % img.width) (i / img.width))
              a := (img.data.getD i pix0).a } := by
        simp [applyConvolution]
      rw [hout]
      ext
      · show uint8Clamp (convSum img (identityKernel t) Pix.r _ _) = _
        rw [convSum_identityKernel img t Pix.r _ _ hx hy, hyx, hgetD]
        exact uint8Clamp_natCast _ (hchan _ hmem).1
      · show uint8Clamp (convSum img (identityKernel t) Pix.g _ _) = _
        rw [convSum_identityKernel img t Pix.g _ _ hx hy, hyx, hgetD]
        exact uint8Clamp_natCast _ (hchan _ hmem).2.1
      · show uint8Clamp (convSum img (identityKernel t) Pix.b _ _) = _
        rw [convSum_identityKernel img t Pix.b _ _ hx hy, hyx, hgetD]
        exact uint8Clamp_natCast _ (hchan _ hmem).2.2
      · show (img.data.getD i pix0).a = _
        rw [hgetD]
  calc applyConvolution img (identityKernel t)
      = ⟨img.width, img.height, (applyConvolution img (identityKernel t)).data⟩ := rfl
    _ = ⟨img.width, img.height, img.data⟩ := by rw [hdata]
    _ = img := rfl

/-- Witness for `applyConvolution_identity` on a concrete 2×2 buffer with
the 3×3 identity kernel. -/
theorem applyConvolution_identity_witness :
    byteImg2x2.data.length = byteImg2x2.width * byteImg2x2.height ∧
    (∀ p ∈ byteImg2x2.data, p.r ≤ 255 ∧ p.g ≤ 255 ∧ p.b ≤ 255) ∧
    applyConvolution byteImg2x2 (identityKernel 1) = byteImg2x2 :=
  ⟨by decide, by decide,
    applyConvolution_identity byteImg2x2 1 (by decide) (by decide)⟩

/-- Two canvases with equal dimensions and pointwise-equal pixels are
equal. -/
theorem qimgExt {a b : QImg} (hw : a.width = b.width) (hh : a.height = b.height)
    (hd : ∀ n, a.data n = b.data n) : a = b := by
  obtain ⟨w1, h1, d1⟩ := a
  obtain ⟨w2, h2, d2⟩ := b
  simp only at hw hh hd
  subst hw
  subst hh
  rw [funext hd]

/-- Source-over with a fully opaque source at full `globalAlpha` replaces
the destination pixel entirely, whatever the destination holds. -/
theorem drawPix_opaque_src (src dst : QPix) (hs : src.a = 1) :
    drawPix 1 src dst = ⟨src.r, src.g, src.b, 1⟩ := by
  simp only [drawPix, sourceOverChan, sourceOverAlpha, hs]
  norm_num

set_option maxRecDepth 8000 in
/-- C3 (counterexample to the claim as stated): the look processor does
NOT apply its contrast/saturation stage to the tinted composite of the
two blend stages.  On a concrete opaque gray canvas the source's output —
the filtered ORIGINAL drawn over the tinted canvas at full opacity —
differs from the claimed three-stage chain in which stage 3 operates on
the output of stages 1 and 2. -/
theorem processSonyLook_ne_chained : processSonyLook qimg40 ≠ chainedLook qimg40 := by
  have hne : ((processSonyLook qimg40).data 0).r ≠ ((chainedLook qimg40).data 0).r := by
    decide
  exact fun h => hne (congrArg (fun im => (im.data 0).r) h)

/-- C3 (amended): `processSonyLook` performs the overlay tint (alpha
0.10) and the soft-light tint (alpha 0.15) in order, but its third step
draws the contrast(1.15)/saturate(1.10)-filtered ORIGINAL buffer over the
canvas at full opacity under `source-over`; since camera frames are
opaque, that final draw replaces every pixel, so the output equals the
contrast/saturation filter applied to the original input and the two
tint stages leave no trace in the result. -/
theorem processSonyLook_filters_original (img : QImg)
    (hop : ∀ n, (img.data n).a = 1) :
    processSonyLook img = mapPixels csFilterPix img := by
  refine qimgExt rfl rfl fun n => ?_
  have key : ∀ dpx : QPix, drawPix 1 (csFilterPix (img.data n)) dpx
      = csFilterPix (img.data n) := by
    intro dpx
    rw [drawPix_opaque_src _ _ (show (csFilterPix (img.data n)).a = 1 from hop n)]
    exact QPix.ext rfl rfl rfl (hop n).symm
  exact key _

/-- Witness for `processSonyLook_filters_original` on the concrete opaque
gray canvas. -/
theorem processSonyLook_filters_original_witness :
    (∀ n, (qimg40.data n).a = 1) ∧
      processSonyLook qimg40 = mapPixels csFilterPix qimg40 :=
  ⟨fun _ => rfl, processSonyLook_filters_original qimg40 (fun _ => rfl)⟩

/-- The four-sample accumulation loop of `performStacking` computes
exactly the spec's recursive `1/i` composite when every frame is opaque:
drawing frame `i` (0-indexed) at `globalAlpha = 1/(i+1)` over the opaque
accumulator is the convex blend with weight `1/(i+1)`. -/
theorem stackFold_eq_spec (fs : Nat → QImg) (w h : Nat)
    (hop : ∀ i, i < 4 → ∀ n, ((fs i).data n).a = 1) :
    (List.range 4).foldl
        (fun (acc : QImg) (i : Nat) => drawImage (1 / ((i : ℚ) + 1)) (fs i) acc)
        (clearCanvas w h)
      = specStackComposite fs w h := by
  refine qimgExt rfl rfl fun n => ?_
  have h0 := hop 0 (by omega) n
  have h1 := hop 1 (by omega) n
  have h2 := hop 2 (by omega) n
  have h3 := hop 3 (by omega) n
  have hr : List.range 4 = [0, 1, 2, 3] := rfl
  simp only [specStackComposite, hr, List.foldl_cons, List.foldl_nil,
    drawImage, clearCanvas, drawPix, sourceOverChan, sourceOverAlpha, specBlend,
    transparent, h0, h1, h2, h3]
  norm_num
  exact ⟨by ring, by ring, by ring⟩

/-- C1: for every opaque frame sequence, `performStacking` composites the
i-th sample (1-indexed, 4 samples) over the accumulator with opacity
exactly `1/i` in sample order — its accumulation loop equals the spec's
recursive composite — and after the last sample it passes the composite
through the look processor exactly once; the result is the buffer handed
to the JPEG encoder. -/
theorem performStacking_refines (fs : Nat → QImg) (w h : Nat)
    (hop : ∀ i, i < 4 → ∀ n, ((fs i).data n).a = 1) :
    performStacking fs w h = processSonyLook (specStackComposite fs w h) :=
  congrArg processSonyLook (stackFold_eq_spec fs w h hop)

/-- Witness for `performStacking_refines` on a constant opaque 1×1 frame
source. -/
theorem performStacking_refines_witness :
    (∀ i, i < 4 → ∀ n, (((fun _ : Nat => constFrame) i).data n).a = 1) ∧
      performStacking (fun _ => constFrame) 1 1
        = processSonyLook (specStackComposite (fun _ => constFrame) 1 1) :=
  ⟨fun _ _ _ => rfl, performStacking_refines (fun _ => constFrame) 1 1 (fun _ _ _ => rfl)⟩
